import Mathlib

/-!
Verification of the escape-sequence codec in `src/escape/esc.rs`.

The Rust code defines a two-variant `Esc` type (a recognized `EscCode`, or an
`Unspecified` raw pair of an optional intermediate byte and a control byte),
a `parse` function that packs the byte pair into an integer key and looks it
up among the enum discriminants, and an `encode_escape` function that writes
the marker byte 0x1b followed by the one or two payload bytes to a sink.

Bytes are modelled as `Nat` (the Rust code uses `u8`; theorems carry `< 256`
hypotheses where the value range matters).  The `isize` enum discriminants are
modelled as `Int`.
-/

/-- Mirrors the single-byte arm of the Rust `esc!` macro: `($low as isize)`. -/
def escLow (low : Char) : Int :=
  Int.ofNat low.toNat

/-- Mirrors the two-byte arm of the Rust `esc!` macro:
`((($high as isize) << 8) | ($low as isize))`.  Both operands are
non-negative code points, so the isize arithmetic agrees with `Nat`
shift-and-or. -/
def escHighLow (high low : Char) : Int :=
  Int.ofNat ((high.toNat <<< 8) ||| low.toNat)

/-- The `EscCode` enum from the source, in declaration order. -/
inductive EscCode where
  | FullReset
  | Index
  | NextLine
  | CursorPositionLowerLeft
  | HorizontalTabSet
  | ReverseIndex
  | SingleShiftG2
  | SingleShiftG3
  | StartOfGuardedArea
  | EndOfGuardedArea
  | StartOfString
  | ReturnTerminalId
  | StringTerminator
  | PrivacyMessage
  | ApplicationProgramCommand
  | DecSaveCursorPosition
  | DecRestoreCursorPosition
  | DecApplicationKeyPad
  | DecNormalKeyPad
  | DecLineDrawing
  | AsciiCharacterSet
  | ApplicationModeArrowUpPress
  | ApplicationModeArrowDownPress
  | ApplicationModeArrowRightPress
  | ApplicationModeArrowLeftPress
  | ApplicationModeHomePress
  | ApplicationModeEndPress
  | F1Press
  | F2Press
  | F3Press
  | F4Press
deriving DecidableEq, Repr, Fintype

/-- The numeric discriminant of each `EscCode` variant, exactly the `esc!`
values assigned in the source. -/
def EscCode.discriminant : EscCode → Int
  | .FullReset => escLow 'c'
  | .Index => escLow 'D'
  | .NextLine => escLow 'E'
  | .CursorPositionLowerLeft => escLow 'F'
  | .HorizontalTabSet => escLow 'H'
  | .ReverseIndex => escLow 'M'
  | .SingleShiftG2 => escLow 'N'
  | .SingleShiftG3 => escLow 'O'
  | .StartOfGuardedArea => escLow 'V'
  | .EndOfGuardedArea => escLow 'W'
  | .StartOfString => escLow 'X'
  | .ReturnTerminalId => escLow 'Z'
  | .StringTerminator => escLow '\\'
  | .PrivacyMessage => escLow '^'
  | .ApplicationProgramCommand => escLow '_'
  | .DecSaveCursorPosition => escLow '7'
  | .DecRestoreCursorPosition => escLow '8'
  | .DecApplicationKeyPad => escLow '='
  | .DecNormalKeyPad => escLow '>'
  | .DecLineDrawing => escHighLow '(' '0'
  | .AsciiCharacterSet => escHighLow '(' 'B'
  | .ApplicationModeArrowUpPress => escHighLow 'O' 'A'
  | .ApplicationModeArrowDownPress => escHighLow 'O' 'B'
  | .ApplicationModeArrowRightPress => escHighLow 'O' 'C'
  | .ApplicationModeArrowLeftPress => escHighLow 'O' 'D'
  | .ApplicationModeHomePress => escHighLow 'O' 'H'
  | .ApplicationModeEndPress => escHighLow 'O' 'F'
  | .F1Press => escHighLow 'O' 'P'
  | .F2Press => escHighLow 'O' 'Q'
  | .F3Press => escHighLow 'O' 'R'
  | .F4Press => escHighLow 'O' 'S'

/-- All `EscCode` variants in declaration order (the recognition table). -/
def escCodeList : List EscCode :=
  [.FullReset, .Index, .NextLine, .CursorPositionLowerLeft, .HorizontalTabSet,
   .ReverseIndex, .SingleShiftG2, .SingleShiftG3, .StartOfGuardedArea,
   .EndOfGuardedArea, .StartOfString, .ReturnTerminalId, .StringTerminator,
   .PrivacyMessage, .ApplicationProgramCommand, .DecSaveCursorPosition,
   .DecRestoreCursorPosition, .DecApplicationKeyPad, .DecNormalKeyPad,
   .DecLineDrawing, .AsciiCharacterSet, .ApplicationModeArrowUpPress,
   .ApplicationModeArrowDownPress, .ApplicationModeArrowRightPress,
   .ApplicationModeArrowLeftPress, .ApplicationModeHomePress,
   .ApplicationModeEndPress, .F1Press, .F2Press, .F3Press, .F4Press]

/-- `num::FromPrimitive::from_u16` as derived for `EscCode`: the first variant
(in declaration order) whose discriminant equals the given value, if any. -/
def EscCode.from_u16 (n : Nat) : Option EscCode :=
  escCodeList.find? (fun c => c.discriminant == Int.ofNat n)

/-- `num::ToPrimitive::to_u16` as derived for `EscCode`: the discriminant when
it is representable as a `u16`, otherwise `none`. -/
def EscCode.to_u16 (c : EscCode) : Option Nat :=
  let d := c.discriminant
  if 0 ≤ d ∧ d < 65536 then some d.toNat else none

/-- The `Esc` enum from the source. -/
inductive Esc where
  | Unspecified (intermediate : Option Nat) (control : Nat)
  | Code (code : EscCode)
deriving DecidableEq, Repr

/-- The packed lookup key computed inside `Esc::internal_parse`:
`((high as u16) << 8) | control as u16` when an intermediate byte is present,
`control as u16` otherwise.  For `u8` inputs the `u16` arithmetic cannot
overflow, so plain `Nat` shift-and-or is exact. -/
def packedKey (intermediate : Option Nat) (control : Nat) : Nat :=
  match intermediate with
  | some high => (high <<< 8) ||| control
  | none => control

/-- `Esc::internal_parse`: pack the byte pair and look it up; a miss is the
`Err(())` of the Rust `Result`. -/
def Esc.internal_parse (intermediate : Option Nat) (control : Nat) :
    Except Unit Esc :=
  let packed := packedKey intermediate control
  match EscCode.from_u16 packed with
  | none => Except.error ()
  | some code => Except.ok (Esc.Code code)

/-- `Esc::parse`: `internal_parse` with the miss mapped to `Unspecified`. -/
def Esc.parse (intermediate : Option Nat) (control : Nat) : Esc :=
  match Esc.internal_parse intermediate control with
  | Except.ok v => v
  | Except.error _ => Esc.Unspecified intermediate control

/-- A byte sink: the `W: std::io::Write` receiver of `encode_escape`.  A state
of type `σ` absorbs a list of bytes (`write_all`) and either succeeds with the
new state or fails with an error of type `ε`. -/
structure ByteSink (σ ε : Type) where
  writeAll : σ → List Nat → Except ε σ

/-- Outcome of `encode_escape`: success with the final sink state, a sink
error propagated by `?`, or the panic of the `.expect` call on `to_u16`
(message: num-derive failed to implement ToPrimitive). -/
inductive EncodeResult (ε σ : Type) where
  | ok (s : σ)
  | err (e : ε)
  | panicked
deriving DecidableEq, Repr

/-- `Esc::encode_escape`: write the marker byte 0x1b, then for a recognized
code the packed key as one byte (`packed & 0xff`) when `packed` is at most
255 or two bytes (`packed >> 8`, `packed & 0xff`) otherwise, and for an
`Unspecified` pair the stored bytes unchanged. -/
def Esc.encode_escape (W : ByteSink σ ε) (e : Esc) (s : σ) :
    EncodeResult ε σ :=
  match W.writeAll s [0x1b] with
  | Except.error er => EncodeResult.err er
  | Except.ok s1 =>
    match e with
    | Esc.Code code =>
      match code.to_u16 with
      | none => EncodeResult.panicked
      | some packed =>
        if 255 < packed then
          match W.writeAll s1 [packed >>> 8, packed &&& 0xff] with
          | Except.error er => EncodeResult.err er
          | Except.ok s2 => EncodeResult.ok s2
        else
          match W.writeAll s1 [packed &&& 0xff] with
          | Except.error er => EncodeResult.err er
          | Except.ok s2 => EncodeResult.ok s2
    | Esc.Unspecified intermediate control =>
      match intermediate with
      | some i =>
        match W.writeAll s1 [i, control] with
        | Except.error er => EncodeResult.err er
        | Except.ok s2 => EncodeResult.ok s2
      | none =>
        match W.writeAll s1 [control] with
        | Except.error er => EncodeResult.err er
        | Except.ok s2 => EncodeResult.ok s2

/-- The `Vec<u8>` sink used by the source tests: appending to a byte list
never fails. -/
def listSink (ε : Type) : ByteSink (List Nat) ε :=
  { writeAll := fun s bs => Except.ok (s ++ bs) }

/-! ### Arithmetic facts about the packed key -/

theorem pack_eq (h c : Nat) (hc : c < 256) : (h <<< 8) ||| c = h * 256 + c := by
  have h2 : (2 : Nat) ^ 8 = 256 := by norm_num
  have hc2 : c < 2 ^ 8 := by rw [h2]; exact hc
  have h1 := Nat.mul_add_lt_is_or hc2 h
  rw [Nat.shiftLeft_eq, Nat.mul_comm h (2 ^ 8), ← h1, h2]

theorem pack_hi (h c : Nat) (hc : c < 256) : ((h <<< 8) ||| c) >>> 8 = h := by
  rw [pack_eq h c hc, Nat.shiftRight_eq_div_pow]
  have h2 : (2 : Nat) ^ 8 = 256 := by norm_num
  rw [h2]
  omega

theorem pack_lo (h c : Nat) (hc : c < 256) : ((h <<< 8) ||| c) &&& 255 = c := by
  rw [pack_eq h c hc]
  have h2 : (255 : Nat) = 2 ^ 8 - 1 := by norm_num
  rw [h2, Nat.and_pow_two_sub_one_eq_mod]
  have h3 : (2 : Nat) ^ 8 = 256 := by norm_num
  rw [h3]
  omega

theorem low_byte_self (c : Nat) (hc : c < 256) : c &&& 255 = c := by
  have h2 : (255 : Nat) = 2 ^ 8 - 1 := by norm_num
  rw [h2, Nat.and_pow_two_sub_one_eq_mod]
  have h3 : (2 : Nat) ^ 8 = 256 := by norm_num
  rw [h3]
  omega

/-! ### Facts about the recognition table -/

theorem from_u16_discriminant {n : Nat} {code : EscCode}
    (hfind : EscCode.from_u16 n = some code) :
    code.discriminant = Int.ofNat n := by
  have hp := List.find?_some hfind
  simpa using hp

theorem to_u16_of_from_u16 {n : Nat} {code : EscCode} (hn : n < 65536)
    (hfind : EscCode.from_u16 n = some code) :
    EscCode.to_u16 code = some n := by
  have hd := from_u16_discriminant hfind
  have h0 : (0 : Int) ≤ Int.ofNat n := Int.ofNat_nonneg n
  have h1 : Int.ofNat n < 65536 := by
    rw [Int.ofNat_eq_natCast]
    exact_mod_cast hn
  simp [EscCode.to_u16, hd, h0, h1, hn]

theorem to_u16_isSome (code : EscCode) : (EscCode.to_u16 code).isSome = true := by
  cases code <;> decide

/-! ### Unfolding lemmas for `parse` and `encode_escape` -/

theorem parse_hit {i : Option Nat} {c : Nat} {code : EscCode}
    (hfind : EscCode.from_u16 (packedKey i c) = some code) :
    Esc.parse i c = Esc.Code code := by
  simp [Esc.parse, Esc.internal_parse, hfind]

theorem parse_miss {i : Option Nat} {c : Nat}
    (hfind : EscCode.from_u16 (packedKey i c) = none) :
    Esc.parse i c = Esc.Unspecified i c := by
  simp [Esc.parse, Esc.internal_parse, hfind]

theorem encode_code_listSink (code : EscCode) (k : Nat)
    (hk : EscCode.to_u16 code = some k) :
    Esc.encode_escape (listSink Unit) (Esc.Code code) [] =
      EncodeResult.ok
        (0x1b :: (if 255 < k then [k >>> 8, k &&& 255] else [k &&& 255])) := by
  simp only [Esc.encode_escape, listSink, hk, List.nil_append]
  split <;> rfl

theorem encode_raw_listSink (i : Option Nat) (c : Nat) :
    Esc.encode_escape (listSink Unit) (Esc.Unspecified i c) [] =
      EncodeResult.ok
        (0x1b :: (match i with | some b => [b, c] | none => [c])) := by
  cases i <;> rfl

/-- The payload bytes written by `encode_escape` after the marker byte. -/
def encPayload (e : Esc) : List Nat :=
  match e with
  | Esc.Code code =>
    match EscCode.to_u16 code with
    | some packed =>
      if 255 < packed then [packed >>> 8, packed &&& 0xff] else [packed &&& 0xff]
    | none => []
  | Esc.Unspecified (some i) c => [i, c]
  | Esc.Unspecified none c => [c]

theorem encode_eq {σ ε : Type} (W : ByteSink σ ε) (e : Esc) (s : σ) :
    Esc.encode_escape W e s =
      match W.writeAll s [0x1b] with
      | Except.error er => EncodeResult.err er
      | Except.ok s1 =>
        match W.writeAll s1 (encPayload e) with
        | Except.error er => EncodeResult.err er
        | Except.ok s2 => EncodeResult.ok s2 := by
  unfold Esc.encode_escape
  cases hw : W.writeAll s [0x1b] with
  | error er => rfl
  | ok s1 =>
    cases e with
    | Code code =>
      cases hk : EscCode.to_u16 code with
      | none =>
        have hs := to_u16_isSome code
        rw [hk] at hs
        simp at hs
      | some packed =>
        simp only [encPayload, hk]
        split <;> rfl
    | Unspecified i c =>
      cases i <;> rfl

theorem encode_no_panic {σ ε : Type} (W : ByteSink σ ε) (e : Esc) (s : σ) :
    Esc.encode_escape W e s ≠ EncodeResult.panicked := by
  rw [encode_eq]
  cases hw : W.writeAll s [0x1b] with
  | error er => simp
  | ok s1 =>
    cases hw2 : W.writeAll s1 (encPayload e) with
    | error er => simp [hw2]
    | ok s2 => simp [hw2]

/-! ### Claims -/

/-- C1, counterexample: the byte-level round trip fails for the intermediate
byte 0.  `parse (some 0) 0x63` packs to the key 0x63 of `FullReset`, and
encoding that code yields `[0x1b, 0x63]`, not `[0x1b, 0x00, 0x63]`. -/
theorem c1_round_trip_counterexample :
    Esc.parse (some 0) 0x63 = Esc.Code EscCode.FullReset ∧
      Esc.encode_escape (listSink Unit) (Esc.parse (some 0) 0x63) [] =
        EncodeResult.ok [0x1b, 0x63] ∧
      Esc.encode_escape (listSink Unit) (Esc.parse (some 0) 0x63) [] ≠
        EncodeResult.ok [0x1b, 0x00, 0x63] := by
  decide

/-- C1 (amended): for every intermediate in `{absent} ∪ {1..255}` and every
control byte in `{0..255}`, encoding the result of `parse` yields exactly the
byte 0x1b followed by the original intermediate byte (if present) and then
the original control byte. -/
theorem c1_round_trip (i : Option Nat) (c : Nat)
    (hi : ∀ b, i = some b → 1 ≤ b ∧ b < 256) (hc : c < 256) :
    Esc.encode_escape (listSink Unit) (Esc.parse i c) [] =
      EncodeResult.ok
        (0x1b :: (match i with | some b => [b, c] | none => [c])) := by
  cases i with
  | none =>
    cases hfind : EscCode.from_u16 (packedKey none c) with
    | none => rw [parse_miss hfind, encode_raw_listSink]
    | some code =>
      rw [parse_hit hfind]
      have hn : packedKey none c < 65536 := by
        simp only [packedKey]
        omega
      have hk := to_u16_of_from_u16 hn hfind
      rw [encode_code_listSink code _ hk]
      have hlt : ¬ 255 < packedKey none c := by
        simp only [packedKey]
        omega
      rw [if_neg hlt]
      simp only [packedKey]
      rw [low_byte_self c hc]
  | some b =>
    obtain ⟨hb1, hb2⟩ := hi b rfl
    cases hfind : EscCode.from_u16 (packedKey (some b) c) with
    | none => rw [parse_miss hfind, encode_raw_listSink]
    | some code =>
      rw [parse_hit hfind]
      have hn : packedKey (some b) c < 65536 := by
        simp only [packedKey]
        rw [pack_eq b c hc]
        omega
      have hk := to_u16_of_from_u16 hn hfind
      rw [encode_code_listSink code _ hk]
      have hgt : 255 < packedKey (some b) c := by
        simp only [packedKey]
        rw [pack_eq b c hc]
        omega
      rw [if_pos hgt]
      simp only [packedKey]
      rw [pack_hi b c hc, pack_lo b c hc]

/-- C1 witness: the amended round trip at the concrete pair `('(', '0')`. -/
theorem c1_round_trip_witness :
    Esc.encode_escape (listSink Unit) (Esc.parse (some 0x28) 0x30) [] =
      EncodeResult.ok [0x1b, 0x28, 0x30] :=
  c1_round_trip (some 0x28) 0x30
    (fun b hb => by cases hb; exact ⟨by decide, by decide⟩) (by decide)

/-- C2, counterexample: with the intermediate byte 0 present, the packed key
`(0 <<< 8) ||| 0x63 = 0x63` is below 256, inside the one-byte key range. -/
theorem c2_packed_key_counterexample :
    packedKey (some 0) 0x63 = 0x63 ∧ ¬ 256 ≤ packedKey (some 0) 0x63 := by
  decide

/-- C2 (amended): for control bytes below 256, a present nonzero intermediate
byte in `{1..255}` yields a packed key at least 256, and an absent
intermediate byte yields a packed key below 256, so those key ranges are
disjoint. -/
theorem c2_packed_key_ranges (b c : Nat) (hb1 : 1 ≤ b) (hb2 : b < 256)
    (hc : c < 256) :
    256 ≤ packedKey (some b) c ∧ packedKey none c < 256 := by
  constructor
  · simp only [packedKey]
    rw [pack_eq b c hc]
    omega
  · simpa [packedKey] using hc

/-- C2 witness: the amended key ranges at the concrete pair `(1, 0)`. -/
theorem c2_packed_key_ranges_witness :
    256 ≤ packedKey (some 1) 0 ∧ packedKey none 0 < 256 :=
  c2_packed_key_ranges 1 0 (by decide) (by decide) (by decide)

/-- C3: for every control byte whose value is the packed key of a recognized
one-byte code, `parse (some 0)` and `parse none` return the same
`RecognizedCode`: the zero intermediate byte packs to the same key as no
intermediate byte and is discarded. -/
theorem c3_zero_intermediate_collapses (c : Nat) (code : EscCode)
    (hc : c < 256) (hfind : EscCode.from_u16 c = some code) :
    Esc.parse (some 0) c = Esc.Code code ∧ Esc.parse none c = Esc.Code code := by
  have h0 : packedKey (some 0) c = packedKey none c := by
    simp [packedKey]
  refine ⟨parse_hit ?_, parse_hit hfind⟩
  rw [h0]
  exact hfind

/-- C3 witness: the collapse at the control byte 0x63 (`FullReset`). -/
theorem c3_zero_intermediate_collapses_witness :
    Esc.parse (some 0) 0x63 = Esc.Code EscCode.FullReset ∧
      Esc.parse none 0x63 = Esc.Code EscCode.FullReset :=
  c3_zero_intermediate_collapses 0x63 EscCode.FullReset (by decide) (by decide)

/-- C4: `parse` is total: a packed key in the table yields `Code` of the
matched identifier, a miss yields `Unspecified` with the exact input bytes,
and every `Unspecified` produced by `parse` stores the inputs and has a
packed key absent from the table. -/
theorem c4_parse_total (i : Option Nat) (c : Nat)
    (hi : ∀ b, i = some b → b < 256) (hc : c < 256) :
    (∀ code, EscCode.from_u16 (packedKey i c) = some code →
        Esc.parse i c = Esc.Code code) ∧
      (EscCode.from_u16 (packedKey i c) = none →
        Esc.parse i c = Esc.Unspecified i c) ∧
      (∀ i2 c2, Esc.parse i c = Esc.Unspecified i2 c2 →
        i2 = i ∧ c2 = c ∧ EscCode.from_u16 (packedKey i c) = none) := by
  refine ⟨fun code hfind => parse_hit hfind, fun hfind => parse_miss hfind, ?_⟩
  intro i2 c2 hparse
  cases hfind : EscCode.from_u16 (packedKey i c) with
  | some code =>
    rw [parse_hit hfind] at hparse
    exact absurd hparse (by simp)
  | none =>
    rw [parse_miss hfind] at hparse
    simp only [Esc.Unspecified.injEq] at hparse
    exact ⟨hparse.1.symm, hparse.2.symm, rfl⟩

/-- C4 witness: the parse trichotomy at the concrete pair `('Z', 0x99)`. -/
theorem c4_parse_total_witness :
    (∀ code, EscCode.from_u16 (packedKey (some 0x5A) 0x99) = some code →
        Esc.parse (some 0x5A) 0x99 = Esc.Code code) ∧
      (EscCode.from_u16 (packedKey (some 0x5A) 0x99) = none →
        Esc.parse (some 0x5A) 0x99 = Esc.Unspecified (some 0x5A) 0x99) ∧
      (∀ i2 c2, Esc.parse (some 0x5A) 0x99 = Esc.Unspecified i2 c2 →
        i2 = some 0x5A ∧ c2 = 0x99 ∧
          EscCode.from_u16 (packedKey (some 0x5A) 0x99) = none) :=
  c4_parse_total (some 0x5A) 0x99
    (fun b hb => by cases hb; decide) (by decide)

/-- C5: `encode_escape` writes the marker byte 0x1b first; a recognized code
is written as its packed key, one byte when the key is below 256 and two
bytes most-significant byte first otherwise; an `Unspecified` pair is written
as the stored intermediate byte (if present) then the stored control byte. -/
theorem c5_encode_layout :
    (∀ code : EscCode, ∃ k, EscCode.to_u16 code = some k ∧
        Esc.encode_escape (listSink Unit) (Esc.Code code) [] =
          EncodeResult.ok
            (0x1b :: (if k < 256 then [k] else [k >>> 8, k &&& 255]))) ∧
      ∀ (i : Option Nat) (c : Nat),
        Esc.encode_escape (listSink Unit) (Esc.Unspecified i c) [] =
          EncodeResult.ok
            (0x1b :: (match i with | some b => [b, c] | none => [c])) := by
  constructor
  · intro code
    cases code <;> exact ⟨_, rfl, by decide⟩
  · intro i c
    exact encode_raw_listSink i c

/-- C6: the recognition table has no key collisions: any two `EscCode`
variants with the same discriminant are the same variant. -/
theorem c6_keys_injective (c1 c2 : EscCode)
    (hk : c1.discriminant = c2.discriminant) : c1 = c2 := by
  revert c1 c2
  decide

/-- C6 witness: injectivity applied at the concrete code `FullReset`. -/
theorem c6_keys_injective_witness : EscCode.FullReset = EscCode.FullReset :=
  c6_keys_injective EscCode.FullReset EscCode.FullReset (by decide)

/-- C7: the three known mappings: `('(', '0')` is `DecLineDrawing` encoding
to `1b 28 30`, `'c'` is `FullReset` encoding to `1b 63`, and `('O', 'P')` is
`F1Press` encoding to `1b 4f 50`. -/
theorem c7_known_mappings :
    Esc.parse (some 0x28) 0x30 = Esc.Code EscCode.DecLineDrawing ∧
      Esc.encode_escape (listSink Unit) (Esc.Code EscCode.DecLineDrawing) [] =
        EncodeResult.ok [0x1b, 0x28, 0x30] ∧
      Esc.parse none 0x63 = Esc.Code EscCode.FullReset ∧
      Esc.encode_escape (listSink Unit) (Esc.Code EscCode.FullReset) [] =
        EncodeResult.ok [0x1b, 0x63] ∧
      Esc.parse (some 0x4F) 0x50 = Esc.Code EscCode.F1Press ∧
      Esc.encode_escape (listSink Unit) (Esc.Code EscCode.F1Press) [] =
        EncodeResult.ok [0x1b, 0x4F, 0x50] := by
  decide

/-- C8: the unrecognized pair `('Z', 0x99)` parses to an `Unspecified` value
holding exactly those bytes, and encoding it yields `1b 5a 99` byte for
byte. -/
theorem c8_unknown_preserved :
    Esc.parse (some 0x5A) 0x99 = Esc.Unspecified (some 0x5A) 0x99 ∧
      Esc.encode_escape (listSink Unit) (Esc.Unspecified (some 0x5A) 0x99) [] =
        EncodeResult.ok [0x1b, 0x5A, 0x99] := by
  decide

/-- C9: every `EscCode` discriminant is non-negative and fits in 16 bits, so
`to_u16` succeeds on every variant and encoding a recognized code never
reaches the panic of the `.expect` call. -/
theorem c9_to_u16_never_fails (code : EscCode) :
    0 ≤ code.discriminant ∧ code.discriminant < 65536 ∧
      (EscCode.to_u16 code).isSome = true ∧
      ∀ (σ ε : Type) (W : ByteSink σ ε) (s : σ),
        Esc.encode_escape W (Esc.Code code) s ≠ EncodeResult.panicked := by
  refine ⟨?_, ?_, to_u16_isSome code, ?_⟩
  · cases code <;> decide
  · cases code <;> decide
  · intro σ ε W s
    exact encode_no_panic W (Esc.Code code) s

/-- C10: `encode_escape` fails exactly when the sink fails: it never panics,
any error it returns was returned unchanged by some `writeAll` call on the
sink, and with a sink that never fails it always succeeds. -/
theorem c10_error_propagation {σ ε : Type} (W : ByteSink σ ε) (e : Esc)
    (s : σ) :
    Esc.encode_escape W e s ≠ EncodeResult.panicked ∧
      (∀ er, Esc.encode_escape W e s = EncodeResult.err er →
        ∃ s2 bs, W.writeAll s2 bs = Except.error er) ∧
      ((∀ (s2 : σ) (bs : List Nat), ∃ s3, W.writeAll s2 bs = Except.ok s3) →
        ∃ s3, Esc.encode_escape W e s = EncodeResult.ok s3) := by
  refine ⟨encode_no_panic W e s, ?_, ?_⟩
  · intro er her
    cases hw : W.writeAll s [0x1b] with
    | error er2 =>
      rw [encode_eq] at her
      simp only [hw, EncodeResult.err.injEq] at her
      exact ⟨s, [0x1b], by rw [hw, her]⟩
    | ok s1 =>
      rw [encode_eq] at her
      simp only [hw] at her
      cases hw2 : W.writeAll s1 (encPayload e) with
      | error er2 =>
        simp only [hw2, EncodeResult.err.injEq] at her
        exact ⟨s1, encPayload e, by rw [hw2, her]⟩
      | ok s2 =>
        simp only [hw2] at her
        exact absurd her (by simp)
  · intro hok
    obtain ⟨s1, hw1⟩ := hok s [0x1b]
    obtain ⟨s2, hw2⟩ := hok s1 (encPayload e)
    refine ⟨s2, ?_⟩
    rw [encode_eq]
    simp [hw1, hw2]

/-- C10 witness: error propagation instantiated at the never-failing list
sink, the `FullReset` code and the empty buffer. -/
theorem c10_error_propagation_witness :
    Esc.encode_escape (listSink Unit) (Esc.Code EscCode.FullReset) [] ≠
        EncodeResult.panicked ∧
      (∀ er,
        Esc.encode_escape (listSink Unit) (Esc.Code EscCode.FullReset) [] =
            EncodeResult.err er →
        ∃ s2 bs, (listSink Unit).writeAll s2 bs = Except.error er) ∧
      ((∀ (s2 : List Nat) (bs : List Nat),
          ∃ s3, (listSink Unit).writeAll s2 bs = Except.ok s3) →
        ∃ s3,
          Esc.encode_escape (listSink Unit) (Esc.Code EscCode.FullReset) [] =
            EncodeResult.ok s3) :=
  c10_error_propagation (listSink Unit) (Esc.Code EscCode.FullReset) []
